import Mathlib

/-!
Verification of the benchmark repository (src/benchmark.py, src/main.py,
src/api.py) against its natural-language specification.

Modelling conventions:
* Python floats (latencies, delays, percentile arithmetic) are modelled as
  exact rationals (`ℚ`).  In the source, percentile indices are computed as
  `int(count * 0.9)` etc. on IEEE doubles; for every count in the range the
  program can produce (`num_requests ≤ 1000` in the API, far below 10^12),
  the double computation agrees with exact arithmetic, so the indices are
  embedded as exact natural-number floor divisions.
* The network is external: the timed-request executor (`make_request`) is
  modelled as an oracle `exec : ℕ → Outcome` giving the outcome of the n-th
  HTTP call of a run, and the random prompt suffix as an oracle
  `rand : ℕ → String`.
* The benchmark loops are embedded as trace-producing functions: every HTTP
  call, backoff sleep, pacing sleep and client construction is recorded as
  an event, so that the sleeping/retry/fallback claims are statements about
  the event trace.
-/

/-! ## Statistics Calculator (src/benchmark.py lines 123-151, identical copy
    in src/main.py lines 204-245) -/

/-- Python `sorted(response_times)`: ascending sort. -/
def sorted_times (response_times : List ℚ) : List ℚ :=
  List.insertionSort (· ≤ ·) response_times

/-- Python `min(l)` for the non-empty lists the source applies it to
    (0 as an arbitrary value on `[]`, where Python would raise). -/
def listMin : List ℚ → ℚ
  | [] => 0
  | x :: xs => xs.foldl min x

/-- Python `max(l)` for the non-empty lists the source applies it to. -/
def listMax : List ℚ → ℚ
  | [] => 0
  | x :: xs => xs.foldl max x

/-- Python `statistics.mean`: exact arithmetic mean (Python's statistics module
    computes it with exact fractions). -/
def mean (data : List ℚ) : ℚ := data.sum / data.length

/-- Python `statistics.median`: sort, then take the middle element (odd length) or
    the average of the two middle elements (even length). -/
def median (data : List ℚ) : ℚ :=
  if (sorted_times data).length % 2 = 1 then
    (sorted_times data).getD ((sorted_times data).length / 2) 0
  else
    ((sorted_times data).getD ((sorted_times data).length / 2 - 1) 0 +
      (sorted_times data).getD ((sorted_times data).length / 2) 0) / 2

/-- The sample variance `sum (x - mean)^2 / (n - 1)`; `statistics.stdev`
    is its square root. -/
def sampleVariance (data : List ℚ) : ℚ :=
  (data.map (fun x => (x - mean data) ^ 2)).sum / ((data.length : ℚ) - 1)

/-- The statistics summary dictionary returned by `calculate_statistics`. -/
structure Stats where
  count : ℕ
  min : ℚ
  max : ℚ
  mean : ℚ
  median : ℚ
  stdev : ℝ
  p90 : ℚ
  p95 : ℚ
  p99 : ℚ

/-- Source function `calculate_statistics` (src/benchmark.py lines 123-151).
    `p90_index = int(count * 0.9)` is embedded as `9 * count / 10` (exact
    floor, equal to the double computation for all feasible counts), and
    `sorted_times[-1]` as the element at position `count - 1`.
    `stdev` is real-valued because Python's `statistics.stdev` takes a
    square root; every other field is exact. -/
noncomputable def calculate_statistics (response_times : List ℚ) : Stats :=
  if response_times = [] then
    { count := 0, min := 0, max := 0, mean := 0, median := 0, stdev := 0,
      p90 := 0, p95 := 0, p99 := 0 }
  else
    { count := (sorted_times response_times).length
      min := listMin (sorted_times response_times)
      max := listMax (sorted_times response_times)
      mean := mean (sorted_times response_times)
      median := median (sorted_times response_times)
      stdev :=
        if 1 < (sorted_times response_times).length then
          Real.sqrt (sampleVariance (sorted_times response_times))
        else 0
      p90 :=
        if 10 ≤ (sorted_times response_times).length then
          (sorted_times response_times).getD
            (9 * (sorted_times response_times).length / 10 - 1) 0
        else (sorted_times response_times).getD
            ((sorted_times response_times).length - 1) 0
      p95 :=
        if 20 ≤ (sorted_times response_times).length then
          (sorted_times response_times).getD
            (95 * (sorted_times response_times).length / 100 - 1) 0
        else (sorted_times response_times).getD
            ((sorted_times response_times).length - 1) 0
      p99 :=
        if 100 ≤ (sorted_times response_times).length then
          (sorted_times response_times).getD
            (99 * (sorted_times response_times).length / 100 - 1) 0
        else (sorted_times response_times).getD
            ((sorted_times response_times).length - 1) 0 }

/-- The latency sequence [0.1, 0.2, ..., 1.0] used by the spec's worked
    example. -/
def exampleTimes : List ℚ :=
  [1/10, 2/10, 3/10, 4/10, 5/10, 6/10, 7/10, 8/10, 9/10, 1]

/-! ## Histogram Generator (src/benchmark.py lines 153-174, identical copy
    in src/main.py lines 249-289) -/

/-- Round-half-even to an integer, the rounding Python's fixed-point float
    formatting applies (with our floats-as-exact-rationals convention). -/
def roundHalfEven (q : ℚ) : ℤ :=
  if Int.fract q < 1/2 then ⌊q⌋
  else if 1/2 < Int.fract q then ⌊q⌋ + 1
  else if ⌊q⌋ % 2 = 0 then ⌊q⌋ else ⌊q⌋ + 1

/-- Zero-pad a natural number to four decimal digits. -/
def pad4 (m : ℕ) : String :=
  String.mk (List.replicate (4 - (toString m).length) '0') ++ toString m

/-- Python `f"{q:.4f}"`: fixed-point formatting with four fractional
    digits. -/
def fmt4 (q : ℚ) : String :=
  (if roundHalfEven (q * 10000) < 0 then "-" else "") ++
    toString ((roundHalfEven (q * 10000)).natAbs / 10000) ++ "." ++
    pad4 ((roundHalfEven (q * 10000)).natAbs % 10000)

/-- Source expression `min(bins - 1, int((time_val - min_time) / bin_width))`
    (src/benchmark.py line 164).  On the actual data path the quotient is
    non-negative, so Python's truncating `int` is the floor. -/
def bucketIndex (min_time bin_width : ℚ) (bins : ℕ) (v : ℚ) : ℕ :=
  min (bins - 1) (⌊(v - min_time) / bin_width⌋).toNat

/-- Source statement `bin_counts[i] += 1`. -/
def incAt (l : List ℕ) (i : ℕ) : List ℕ := l.set i (l.getD i 0 + 1)

/-- The `for time_val in response_times: bin_counts[bin_index] += 1` loop,
    starting from `[0] * bins`. -/
def mkBinCounts (xs : List ℚ) (min_time bin_width : ℚ) (bins : ℕ) : List ℕ :=
  xs.foldl (fun acc v => incAt acc (bucketIndex min_time bin_width bins v))
    (List.replicate bins 0)

/-- Source expression `max(bin_counts) if bin_counts else 0` (src/benchmark.py line 166). -/
def listMaxNat : List ℕ → ℕ
  | [] => 0
  | x :: xs => xs.foldl max x

/-- The bucket width chosen by `generate_ascii_histogram`
    (src/benchmark.py lines 158-161). -/
def binWidthOf (xs : List ℚ) (bins : ℕ) : ℚ :=
  if listMin xs = listMax xs then 1/10 else (listMax xs - listMin xs) / bins

/-- The populated `bin_counts` list of `generate_ascii_histogram`. -/
def binCountsOf (xs : List ℚ) (bins : ℕ) : List ℕ :=
  mkBinCounts xs (listMin xs) (binWidthOf xs bins) bins

/-- Source expression of the bar, src/benchmark.py line 172. -/
def histBar (count : ℕ) (scale_factor : ℚ) : String :=
  String.mk (List.replicate (⌊(count : ℚ) * scale_factor⌋.toNat) '#')

/-- Source function `generate_ascii_histogram` (src/benchmark.py lines 153-174):
    Python's `enumerate(bin_counts)` is `List.enum`, the f-string is the
    concatenation via `fmt4`, and `"\n".join` is `String.intercalate`. -/
def generate_ascii_histogram (response_times : List ℚ) (bins : ℕ) : String :=
  if response_times = [] then "No data to display"
  else
    String.intercalate "\n"
      ((binCountsOf response_times bins).enum.map (fun ic =>
        fmt4 (listMin response_times + ic.1 * binWidthOf response_times bins) ++
          " - " ++
          fmt4 (listMin response_times + ic.1 * binWidthOf response_times bins +
            binWidthOf response_times bins) ++
          " | " ++
          histBar ic.2
            (if 0 < listMaxNat (binCountsOf response_times bins) then
              40 / (listMaxNat (binCountsOf response_times bins) : ℚ)
            else 1) ++
          " (" ++ toString ic.2 ++ ")"))

/-! ## Benchmark Loop (src/benchmark.py lines 66-121, CLI copy in
    src/main.py lines 114-200)

    The network is an oracle `exec : ℕ → Outcome` giving the outcome of the
    n-th `make_request` call of the run; prompt randomization draws its
    8-character suffix from an oracle `rand : ℕ → String`.  The loop is
    embedded as a trace-producing function so that requests, backoff
    sleeps, pacing sleeps and the client construction are observable. -/

/-- The classification data of a caught exception: whether it is one of
    `(ssl.SSLError, httpx.SSLError)` and its `str(...)` text. -/
structure ErrInfo where
  isSSLTypeError : Bool
  msg : String
deriving DecidableEq, Repr

/-- The `(response_time, response_data, exception)` triple returned by
    `make_request`; `hasData` is `response_data is not None`, and the
    parsed body itself is irrelevant to control flow. -/
structure Outcome where
  response_time : ℚ
  hasData : Bool
  exception : Option ErrInfo
deriving DecidableEq, Repr

/-- The run configuration handed to `run_benchmark`. -/
structure Config where
  endpoint : String
  api_key : String
  model : String
  prompt : String
  num_requests : ℕ
  timeout : ℚ
  max_retries : ℕ
  retry_delay : ℚ
  request_delay : ℚ
  debug : Bool
  randomize_prompt : Bool
deriving DecidableEq, Repr

/-- Observable events of one benchmark run.  `iterStart`/`iterEnd` delimit
    the retry processing of one `for i in range(num_requests)` iteration;
    `request fb ep pr` is one `make_request` call (`fb` marks the
    protocol-fallback call site); the two sleep events record the
    `asyncio.sleep` calls with their durations. -/
inductive Ev
  | clientInit (verify : Bool)
  | request (fallback : Bool) (endpoint prompt : String)
  | sleepRetry (seconds : ℚ)
  | sleepPacing (seconds : ℚ)
  | iterStart (i : ℕ)
  | iterEnd (i : ℕ)
deriving DecidableEq, Repr

/-- Python substring test (the `in` operator on strings) on character lists. -/
def containsSubstring (pat : List Char) : List Char → Bool
  | [] => pat.isEmpty
  | c :: cs => pat.isPrefixOf (c :: cs) || containsSubstring pat cs

/-- Source expression `endpoint.replace("https://", "http://")`: Python replaces every
    (left-to-right, non-overlapping) occurrence. -/
def replaceHttps : List Char → List Char
  | 'h' :: 't' :: 't' :: 'p' :: 's' :: ':' :: '/' :: '/' :: rest =>
      'h' :: 't' :: 't' :: 'p' :: ':' :: '/' :: '/' :: replaceHttps rest
  | c :: cs => c :: replaceHttps cs
  | [] => []

/-- String version of `endpoint.replace("https://", "http://")`. -/
def replaceHttpsStr (s : String) : String :=
  String.mk (replaceHttps s.toList)

/-- Source expression `endpoint.startswith("https://")`. -/
def startsWithHttps (s : String) : Bool :=
  "https://".toList.isPrefixOf s.toList

/-- Source condition `exception and (isinstance(exception, (ssl.SSLError, httpx.SSLError))
    or "SSL" in str(exception) or "TLS" in str(exception))`
    (src/benchmark.py line 103). -/
def sslRelated : Option ErrInfo → Bool
  | none => false
  | some e =>
      e.isSSLTypeError || containsSubstring "SSL".toList e.msg.toList ||
        containsSubstring "TLS".toList e.msg.toList

/-- The prompt used by iteration `i` (src/benchmark.py lines 90-95):
    randomization appends `" [rnd:<suffix>]"` with a fresh suffix. -/
def promptFor (cfg : Config) (rand : ℕ → String) (i : ℕ) : String :=
  if cfg.randomize_prompt then cfg.prompt ++ " [rnd:" ++ rand i ++ "]"
  else cfg.prompt

/-- One retry attempt of the loop body (src/benchmark.py lines 97-108):
    the `make_request` call followed by the protocol-fallback rule.
    Returns the outcome used by the subsequent `response_data` check, the
    advanced call counter, and the requests issued.  After a fallback,
    Python overwrites `response_time`/`response_data` with the fallback
    call's values while the original `exception` variable survives unread;
    returning the fallback outcome whole is observationally identical. -/
def attemptOnce (cfg : Config) (exec : ℕ → Outcome) (prompt_to_use : String)
    (ctr : ℕ) : Outcome × ℕ × List Ev :=
  let o := exec ctr
  if o.hasData = false ∧ cfg.debug = true ∧ startsWithHttps cfg.endpoint = true then
    if o.exception.isSome = true ∧ sslRelated o.exception = true then
      (exec (ctr + 1), ctr + 2,
        [Ev.request false cfg.endpoint prompt_to_use,
         Ev.request true (replaceHttpsStr cfg.endpoint) prompt_to_use])
    else (o, ctr + 1, [Ev.request false cfg.endpoint prompt_to_use])
  else (o, ctr + 1, [Ev.request false cfg.endpoint prompt_to_use])

/-- The `while retry_count <= max_retries` loop of src/benchmark.py
    lines 96-118, for one iteration of the outer loop.  `gas` is the
    number of loop entries still allowed (`max_retries + 1 - retry_count`);
    the loop is always entered with `retry_count = 0` and
    `gas = max_retries + 1`, so the `gas = 0` guard is never reached.
    Returns the advanced call counter, the recorded sample (if any) and
    the trace. -/
def retryLoop (cfg : Config) (exec : ℕ → Outcome) (prompt_to_use : String) :
    ℕ → ℕ → ℕ → ℕ × Option ℚ × List Ev
  | 0, _, ctr => (ctr, none, [])
  | gas + 1, retry_count, ctr =>
    let r := attemptOnce cfg exec prompt_to_use ctr
    if r.1.hasData then (r.2.1, some r.1.response_time, r.2.2)
    else if retry_count + 1 ≤ cfg.max_retries then
      let rest := retryLoop cfg exec prompt_to_use gas (retry_count + 1) r.2.1
      (rest.1, rest.2.1,
        r.2.2 ++ Ev.sleepRetry (cfg.retry_delay * ((retry_count : ℚ) + 1)) ::
          rest.2.2)
    else (r.2.1, none, r.2.2)

/-- The `for i in range(num_requests)` loop of src/benchmark.py
    lines 88-120, with `remaining = num_requests - i` iterations left.
    The pacing sleep (lines 119-120) runs once per non-final iteration,
    after the retry loop. -/
def loopFrom (cfg : Config) (exec : ℕ → Outcome) (rand : ℕ → String) :
    ℕ → ℕ → ℕ → List ℚ × List Ev
  | 0, _, _ => ([], [])
  | remaining + 1, i, ctr =>
    let r := retryLoop cfg exec (promptFor cfg rand i) (cfg.max_retries + 1) 0 ctr
    let rest := loopFrom cfg exec rand remaining (i + 1) r.1
    (r.2.1.toList ++ rest.1,
      (Ev.iterStart i :: r.2.2 ++ [Ev.iterEnd i]) ++
        (if i < cfg.num_requests - 1 then [Ev.sleepPacing cfg.request_delay]
         else []) ++ rest.2)

/-- Source function `run_benchmark` (src/benchmark.py lines 66-121), the copy the
    POST /benchmark handler calls.  `verify_ssl = False` is hardcoded
    (line 83) and passed to `httpx.AsyncClient(verify=verify_ssl)`
    (line 87), recorded as the `clientInit` event. -/
def run_benchmark (cfg : Config) (exec : ℕ → Outcome) (rand : ℕ → String) :
    List ℚ × List Ev :=
  let r := loopFrom cfg exec rand cfg.num_requests 0 0
  (r.1, Ev.clientInit false :: r.2)

/-- The `while` loop of src/main.py lines 159-195.  It differs from the
    src/benchmark.py copy in one way: the pacing block
    `if i < num_requests - 1: await asyncio.sleep(request_delay)`
    (lines 192-195) is indented inside the `while` loop, so it executes
    exactly when the loop continues to another retry attempt — after the
    backoff sleep — and is skipped by both `break` paths. -/
def retryLoopMain (cfg : Config) (exec : ℕ → Outcome) (prompt_to_use : String)
    (i : ℕ) : ℕ → ℕ → ℕ → ℕ × Option ℚ × List Ev
  | 0, _, ctr => (ctr, none, [])
  | gas + 1, retry_count, ctr =>
    let r := attemptOnce cfg exec prompt_to_use ctr
    if r.1.hasData then (r.2.1, some r.1.response_time, r.2.2)
    else if retry_count + 1 ≤ cfg.max_retries then
      let rest := retryLoopMain cfg exec prompt_to_use i gas (retry_count + 1) r.2.1
      (rest.1, rest.2.1,
        r.2.2 ++ Ev.sleepRetry (cfg.retry_delay * ((retry_count : ℚ) + 1)) ::
          ((if i < cfg.num_requests - 1 then
              [Ev.sleepPacing cfg.request_delay]
            else []) ++ rest.2.2))
    else (r.2.1, none, r.2.2)

/-- The `for i in range(num_requests)` loop of src/main.py lines 157-195:
    no pacing sleep at the `for` level (it sits inside the `while`). -/
def loopFromMain (cfg : Config) (exec : ℕ → Outcome) :
    ℕ → ℕ → ℕ → List ℚ × List Ev
  | 0, _, _ => ([], [])
  | remaining + 1, i, ctr =>
    let r := retryLoopMain cfg exec cfg.prompt i (cfg.max_retries + 1) 0 ctr
    let rest := loopFromMain cfg exec remaining (i + 1) r.1
    (r.2.1.toList ++ rest.1,
      (Ev.iterStart i :: r.2.2 ++ [Ev.iterEnd i]) ++ rest.2)

/-- Source function `run_benchmark` of src/main.py lines 114-200 (the CLI copy): takes a
    `verify_ssl` parameter and has no prompt randomization. -/
def run_benchmark_main (cfg : Config) (verify_ssl : Bool)
    (exec : ℕ → Outcome) : List ℚ × List Ev :=
  let r := loopFromMain cfg exec cfg.num_requests 0 0
  (r.1, Ev.clientInit verify_ssl :: r.2)

/-! ### Trace observations -/

/-- The verify flags of the HTTP clients constructed during a run. -/
def clientVerifyFlags (tr : List Ev) : List Bool :=
  tr.filterMap fun e => match e with
    | Ev.clientInit v => some v
    | _ => none

/-- Number of non-fallback `make_request` calls in a trace. -/
def nonFallbackCount (tr : List Ev) : ℕ :=
  (tr.filter fun e => match e with
    | Ev.request false _ _ => true
    | _ => false).length

/-- Number of fallback `make_request` calls in a trace. -/
def fallbackCount (tr : List Ev) : ℕ :=
  (tr.filter fun e => match e with
    | Ev.request true _ _ => true
    | _ => false).length

/-- The durations of the backoff sleeps of a trace, in order. -/
def retrySleepTimes (tr : List Ev) : List ℚ :=
  tr.filterMap fun e => match e with
    | Ev.sleepRetry d => some d
    | _ => none

/-- The number of pacing sleeps of a trace. -/
def pacingCount (tr : List Ev) : ℕ :=
  (tr.filter fun e => match e with
    | Ev.sleepPacing _ => true
    | _ => false).length

/-! ## Spec-side definitions

    These definitions follow the wording of the specification (not the
    source); the refinement claims compare them with the source-derived
    definitions above. -/

/-- Modelled from the spec: "stdev = sample standard deviation", the
    square root of `sum (x - mean)^2 / (n - 1)` over the sequence. -/
noncomputable def sampleStdDev (data : List ℚ) : ℝ :=
  Real.sqrt (((data.map (fun x => (x - mean data) ^ 2)).sum /
    ((data.length : ℚ) - 1) : ℚ))

/-- Spec wording: "each sample is assigned to bucket
    min(bins-1, floor((value - min) / width))". -/
def specBucket (mn w : ℚ) (bins : ℕ) (v : ℚ) : ℕ :=
  min (bins - 1) ⌊(v - mn) / w⌋₊

/-- Spec wording: "bucket width is (max - min) / bins unless min == max,
    in which case width is 0.1". -/
def specWidth (xs : List ℚ) (bins : ℕ) : ℚ :=
  if listMin xs = listMax xs then 1/10 else (listMax xs - listMin xs) / bins

/-- Spec wording: the count of each bucket is the number of samples
    assigned to it. -/
def specCountsOf (xs : List ℚ) (bins : ℕ) : List ℕ :=
  (List.range bins).map (fun i =>
    (xs.filter (fun v =>
      specBucket (listMin xs) (specWidth xs bins) bins v = i)).length)

/-- Spec wording: "the bar for a bucket of count c has
    floor(c * 40 / max_bucket_count) marker characters". -/
def specBarLen (c maxc : ℕ) : ℕ := c * 40 / maxc

/-- Spec wording: one line per bucket, "the bucket start and end to 4
    decimal places, ' | ', the bar, and the count in parentheses". -/
def specLine (xs : List ℚ) (bins i : ℕ) : String :=
  fmt4 (listMin xs + i * specWidth xs bins) ++ " - " ++
    fmt4 (listMin xs + i * specWidth xs bins + specWidth xs bins) ++ " | " ++
    String.mk (List.replicate
      (specBarLen ((specCountsOf xs bins).getD i 0)
        (listMaxNat (specCountsOf xs bins))) '#') ++
    " (" ++ toString ((specCountsOf xs bins).getD i 0) ++ ")"

/-- Spec wording: "one line per bucket in ascending order, including
    empty buckets, joined by newlines". -/
def histogramSpec (xs : List ℚ) (bins : ℕ) : String :=
  String.intercalate "\n" ((List.range bins).map (specLine xs bins))

/-! ## Concrete inputs used by counterexamples and witnesses -/

/-- A small run configuration: two requests, no retries, plain http
    endpoint, debug off. -/
def cfgTwo : Config :=
  { endpoint := "http://e", api_key := "k", model := "m", prompt := "p",
    num_requests := 2, timeout := 30, max_retries := 0, retry_delay := 1,
    request_delay := 2, debug := false, randomize_prompt := false }

/-- Like `cfgTwo` but allowing one retry per iteration. -/
def cfgTwoRetry : Config :=
  { endpoint := "http://e", api_key := "k", model := "m", prompt := "p",
    num_requests := 2, timeout := 30, max_retries := 1, retry_delay := 1,
    request_delay := 2, debug := false, randomize_prompt := false }

/-- An https endpoint with debug enabled (the protocol-fallback
    preconditions). -/
def cfgSSL : Config :=
  { endpoint := "https://api.example", api_key := "k", model := "m",
    prompt := "p", num_requests := 1, timeout := 30, max_retries := 0,
    retry_delay := 1, request_delay := 2, debug := true,
    randomize_prompt := false }

/-- An executor whose every request succeeds with latency 1. -/
def execOK : ℕ → Outcome :=
  fun _ => { response_time := 1, hasData := true, exception := none }

/-- An executor whose every request fails with a non-SSL error. -/
def execFail : ℕ → Outcome :=
  fun _ => { response_time := 1, hasData := false,
             exception := some { isSSLTypeError := false, msg := "refused" } }

/-- An executor whose first request fails with an SSL-classified error
    and whose later requests succeed. -/
def execSSL : ℕ → Outcome :=
  fun n =>
    if n = 0 then
      { response_time := 1, hasData := false,
        exception := some { isSSLTypeError := true, msg := "handshake" } }
    else { response_time := 2, hasData := true, exception := none }

/-- Trace restricted to iteration boundaries and pacing sleeps: the
    shape against which the pacing claim is judged. -/
def boundaryAndPacing (tr : List Ev) : List Ev :=
  tr.filter fun e => match e with
    | Ev.iterStart _ => true
    | Ev.iterEnd _ => true
    | Ev.sleepPacing _ => true
    | _ => false

/-! ## Sanity checks of the scheme replacement -/

example : replaceHttpsStr "https://api.example" = "http://api.example" := rfl

example : replaceHttpsStr "http://e" = "http://e" := rfl

/-! ## Generic fold-max/fold-min lemmas (for Python's `min`/`max`) -/

lemma le_foldl_max {α : Type} [LinearOrder α] (l : List α) (b : α) :
    b ≤ l.foldl max b := by
  induction l generalizing b with
  | nil => simp
  | cons x xs ih => exact le_trans (le_max_left b x) (ih (max b x))

lemma mem_le_foldl_max {α : Type} [LinearOrder α] (l : List α) (b x : α)
    (hx : x ∈ l) : x ≤ l.foldl max b := by
  induction l generalizing b with
  | nil => cases hx
  | cons y ys ih =>
    rcases List.mem_cons.mp hx with h | h
    · subst h
      exact le_trans (le_max_right b x) (le_foldl_max ys (max b x))
    · exact ih (max b y) h

lemma foldl_max_mem {α : Type} [LinearOrder α] (l : List α) (b : α) :
    l.foldl max b = b ∨ l.foldl max b ∈ l := by
  induction l generalizing b with
  | nil => exact Or.inl rfl
  | cons x xs ih =>
    rcases ih (max b x) with h | h
    · rcases max_choice b x with hb | hb
      · exact Or.inl (by rw [List.foldl_cons, h, hb])
      · exact Or.inr (by rw [List.foldl_cons, h, hb]; exact List.mem_cons_self x xs)
    · exact Or.inr (List.mem_cons_of_mem x h)

lemma foldl_min_le {α : Type} [LinearOrder α] (l : List α) (b : α) :
    l.foldl min b ≤ b := by
  induction l generalizing b with
  | nil => simp
  | cons x xs ih => exact le_trans (ih (min b x)) (min_le_left b x)

lemma foldl_min_le_mem {α : Type} [LinearOrder α] (l : List α) (b x : α)
    (hx : x ∈ l) : l.foldl min b ≤ x := by
  induction l generalizing b with
  | nil => cases hx
  | cons y ys ih =>
    rcases List.mem_cons.mp hx with h | h
    · subst h
      exact le_trans (foldl_min_le ys (min b x)) (min_le_right b x)
    · exact ih (min b y) h

lemma foldl_min_mem {α : Type} [LinearOrder α] (l : List α) (b : α) :
    l.foldl min b = b ∨ l.foldl min b ∈ l := by
  induction l generalizing b with
  | nil => exact Or.inl rfl
  | cons x xs ih =>
    rcases ih (min b x) with h | h
    · rcases min_choice b x with hb | hb
      · exact Or.inl (by rw [List.foldl_cons, h, hb])
      · exact Or.inr (by rw [List.foldl_cons, h, hb]; exact List.mem_cons_self x xs)
    · exact Or.inr (List.mem_cons_of_mem x h)

lemma le_listMax (xs : List ℚ) (x : ℚ) (hx : x ∈ xs) : x ≤ listMax xs := by
  cases xs with
  | nil => cases hx
  | cons y ys =>
    rcases List.mem_cons.mp hx with h | h
    · subst h; exact le_foldl_max ys x
    · exact mem_le_foldl_max ys y x h

lemma listMax_mem (xs : List ℚ) (hx : xs ≠ []) : listMax xs ∈ xs := by
  cases xs with
  | nil => exact absurd rfl hx
  | cons y ys =>
    rcases foldl_max_mem ys y with h | h
    · rw [listMax, h]; exact List.mem_cons_self y ys
    · exact List.mem_cons_of_mem y h

lemma listMin_le (xs : List ℚ) (x : ℚ) (hx : x ∈ xs) : listMin xs ≤ x := by
  cases xs with
  | nil => cases hx
  | cons y ys =>
    rcases List.mem_cons.mp hx with h | h
    · subst h
      exact foldl_min_le ys x
    · exact foldl_min_le_mem ys y x h
  
lemma listMin_mem (xs : List ℚ) (hx : xs ≠ []) : listMin xs ∈ xs := by
  cases xs with
  | nil => exact absurd rfl hx
  | cons y ys =>
    rcases foldl_min_mem ys y with h | h
    · rw [listMin, h]; exact List.mem_cons_self y ys
    · exact List.mem_cons_of_mem y h

lemma le_listMaxNat (l : List ℕ) (x : ℕ) (hx : x ∈ l) : x ≤ listMaxNat l := by
  cases l with
  | nil => cases hx
  | cons y ys =>
    rcases List.mem_cons.mp hx with h | h
    · subst h; exact le_foldl_max ys x
    · exact mem_le_foldl_max ys y x h

/-- Unfolding of `calculate_statistics` on a non-empty input. -/
lemma calculate_statistics_of_ne (xs : List ℚ) (h : xs ≠ []) :
    calculate_statistics xs =
      { count := (sorted_times xs).length
        min := listMin (sorted_times xs)
        max := listMax (sorted_times xs)
        mean := mean (sorted_times xs)
        median := median (sorted_times xs)
        stdev :=
          if 1 < (sorted_times xs).length then
            Real.sqrt (sampleVariance (sorted_times xs))
          else 0
        p90 :=
          if 10 ≤ (sorted_times xs).length then
            (sorted_times xs).getD (9 * (sorted_times xs).length / 10 - 1) 0
          else (sorted_times xs).getD ((sorted_times xs).length - 1) 0
        p95 :=
          if 20 ≤ (sorted_times xs).length then
            (sorted_times xs).getD (95 * (sorted_times xs).length / 100 - 1) 0
          else (sorted_times xs).getD ((sorted_times xs).length - 1) 0
        p99 :=
          if 100 ≤ (sorted_times xs).length then
            (sorted_times xs).getD (99 * (sorted_times xs).length / 100 - 1) 0
          else (sorted_times xs).getD ((sorted_times xs).length - 1) 0 } := by
  rw [calculate_statistics, if_neg h]

/-! ## Claim theorems: easy statistics and histogram claims -/

/-- Claim C9: on the empty latency sequence the histogram generator
    returns exactly the string "No data to display" (for any bucket
    count), and in particular does not raise. -/
theorem benchmark_C9 (bins : ℕ) :
    generate_ascii_histogram [] bins = "No data to display" := rfl

/-- Claim C6: on the empty latency sequence the statistics calculator
    returns a summary whose nine fields are all zero, without raising. -/
theorem benchmark_C6 :
    (calculate_statistics []).count = 0 ∧ (calculate_statistics []).min = 0 ∧
    (calculate_statistics []).max = 0 ∧ (calculate_statistics []).mean = 0 ∧
    (calculate_statistics []).median = 0 ∧ (calculate_statistics []).stdev = 0 ∧
    (calculate_statistics []).p90 = 0 ∧ (calculate_statistics []).p95 = 0 ∧
    (calculate_statistics []).p99 = 0 :=
  ⟨rfl, rfl, rfl, rfl, rfl, rfl, rfl, rfl, rfl⟩

/-- Claim C2, counterexample: on [0.1, 0.2, ..., 1.0] the claimed value
    p90 = 1.0 is wrong — the code takes the element at sorted index
    `int(10 * 0.9) - 1 = 8`, which is 0.9 — so the claimed conjunction is
    false. -/
theorem benchmark_C2_cex :
    ¬((calculate_statistics exampleTimes).count = 10 ∧
      (calculate_statistics exampleTimes).min = 1/10 ∧
      (calculate_statistics exampleTimes).max = 1 ∧
      (calculate_statistics exampleTimes).mean = 11/20 ∧
      (calculate_statistics exampleTimes).median = 11/20 ∧
      (calculate_statistics exampleTimes).p90 = 1) := by
  have hp : (calculate_statistics exampleTimes).p90 = 9/10 := by
    rw [show exampleTimes = (1/10 : ℚ) :: [2/10, 3/10, 4/10, 5/10, 6/10,
      7/10, 8/10, 9/10, 1] from rfl,
      calculate_statistics_of_ne _ (List.cons_ne_nil _ _)]
    norm_num [sorted_times, List.insertionSort, List.orderedInsert]
  intro h
  rw [hp] at h
  norm_num at h

/-- Claim C2 as amended: on [0.1, 0.2, ..., 1.0] the statistics
    calculator returns count = 10, min = 0.1, max = 1.0, mean = 0.55,
    median = 0.55, and p90 = 0.9 (the element at sorted index 8). -/
theorem benchmark_C2 :
    (calculate_statistics exampleTimes).count = 10 ∧
    (calculate_statistics exampleTimes).min = 1/10 ∧
    (calculate_statistics exampleTimes).max = 1 ∧
    (calculate_statistics exampleTimes).mean = 11/20 ∧
    (calculate_statistics exampleTimes).median = 11/20 ∧
    (calculate_statistics exampleTimes).p90 = 9/10 := by
  rw [show exampleTimes = (1/10 : ℚ) :: [2/10, 3/10, 4/10, 5/10, 6/10,
    7/10, 8/10, 9/10, 1] from rfl,
    calculate_statistics_of_ne _ (List.cons_ne_nil _ _)]
  refine ⟨?_, ?_, ?_, ?_, ?_, ?_⟩ <;>
    norm_num [sorted_times, List.insertionSort, List.orderedInsert,
      listMin, listMax, mean, median]

/-! ## Sorting and percentile lemmas -/

lemma getD_eq_getElem_of_lt {α : Type} [Inhabited α] (l : List α) (d : α)
    (n : ℕ) (h : n < l.length) : l.getD n d = l[n] := by
  simp [List.getD_eq_getElem?_getD, List.getElem?_eq_getElem h]

lemma sorted_times_perm (xs : List ℚ) : (sorted_times xs).Perm xs :=
  List.perm_insertionSort _ xs

lemma length_sorted_times (xs : List ℚ) :
    (sorted_times xs).length = xs.length := by
  simp [sorted_times]

lemma mean_sorted_times (xs : List ℚ) : mean (sorted_times xs) = mean xs := by
  unfold mean
  rw [(sorted_times_perm xs).sum_eq, (sorted_times_perm xs).length_eq]

lemma sampleVariance_sorted_times (xs : List ℚ) :
    sampleVariance (sorted_times xs) = sampleVariance xs := by
  unfold sampleVariance
  rw [mean_sorted_times, ((sorted_times_perm xs).map _).sum_eq,
    (sorted_times_perm xs).length_eq]

/-- Truncation `int(n * (a/b))` as exact natural-number arithmetic. -/
lemma natFloor_mul_div (n a b : ℕ) :
    ⌊(n : ℚ) * ((a : ℚ) / (b : ℚ))⌋₊ = a * n / b := by
  rcases Nat.eq_zero_or_pos b with hb | _
  · subst hb; simp
  · have h : (n : ℚ) * ((a : ℚ) / (b : ℚ)) = ((a * n : ℕ) : ℚ) / (b : ℕ) := by
      push_cast; ring
    rw [h, Nat.floor_div_nat, Nat.floor_natCast]

lemma natFloor_p90 (n : ℕ) : ⌊(n : ℚ) * (9/10)⌋₊ = 9 * n / 10 := by
  rw [show (n : ℚ) * (9/10) = ((9 * n : ℕ) : ℚ) / ((10 : ℕ) : ℚ) by
    push_cast; ring, Nat.floor_div_nat, Nat.floor_natCast]

lemma natFloor_p95 (n : ℕ) : ⌊(n : ℚ) * (95/100)⌋₊ = 95 * n / 100 := by
  rw [show (n : ℚ) * (95/100) = ((95 * n : ℕ) : ℚ) / ((100 : ℕ) : ℚ) by
    push_cast; ring, Nat.floor_div_nat, Nat.floor_natCast]

lemma natFloor_p99 (n : ℕ) : ⌊(n : ℚ) * (99/100)⌋₊ = 99 * n / 100 := by
  rw [show (n : ℚ) * (99/100) = ((99 * n : ℕ) : ℚ) / ((100 : ℕ) : ℚ) by
    push_cast; ring, Nat.floor_div_nat, Nat.floor_natCast]

/-- Last element `sorted_times[-1]` is the maximum of the original sequence. -/
lemma sorted_times_getD_last (xs : List ℚ) (h : xs ≠ []) :
    (sorted_times xs).getD ((sorted_times xs).length - 1) 0 = listMax xs := by
  have hs : List.Sorted (· ≤ ·) (sorted_times xs) :=
    List.sorted_insertionSort _ xs
  have hperm := sorted_times_perm xs
  have hlen : 0 < (sorted_times xs).length := by
    rw [length_sorted_times]; exact List.length_pos.mpr h
  have hidx : (sorted_times xs).length - 1 < (sorted_times xs).length := by
    omega
  rw [getD_eq_getElem_of_lt _ _ _ hidx]
  apply le_antisymm
  · exact le_listMax xs _ (hperm.mem_iff.mp (List.getElem_mem hidx))
  · have hm : listMax xs ∈ sorted_times xs :=
      hperm.mem_iff.mpr (listMax_mem xs h)
    obtain ⟨i, hi, hgi⟩ := List.getElem_of_mem hm
    rw [← hgi]
    have hrel := hs.rel_get_of_le (a := ⟨i, hi⟩)
      (b := ⟨(sorted_times xs).length - 1, hidx⟩) (by simp; omega)
    simpa [List.get_eq_getElem] using hrel

/-- Claim C7: the statistics calculator returns stdev = 0 on sequences of
    length exactly 1 (not an error), and the sample standard deviation on
    sequences of length at least 2. -/
theorem benchmark_C7 (xs : List ℚ) (h : 1 ≤ xs.length) :
    (calculate_statistics xs).stdev =
      if xs.length = 1 then 0 else sampleStdDev xs := by
  have hne : xs ≠ [] := by
    cases xs
    · simp at h
    · exact List.cons_ne_nil _ _
  rw [calculate_statistics_of_ne xs hne]
  simp only [length_sorted_times]
  by_cases h1 : xs.length = 1
  · simp [h1]
  · have h2 : 1 < xs.length := by omega
    rw [if_pos h2, if_neg h1, sampleVariance_sorted_times]
    rfl

/-- Witness for C7 at the one-element sequence [5]. -/
theorem benchmark_C7_witness :
    1 ≤ ([5] : List ℚ).length ∧
    ((calculate_statistics [5]).stdev =
      if ([5] : List ℚ).length = 1 then 0 else sampleStdDev [5]) :=
  ⟨by simp, benchmark_C7 [5] (by simp)⟩

/-- Claim C1: the percentile fields of the statistics calculator are
    index lookups on the ascending-sorted sequence at position
    `floor(count * p) - 1`, gated on minimum counts 10/20/100, and fall
    back to the maximum below the gate; in particular all three
    percentiles are the maximum at count 9, and p90 is sorted index 8 at
    count 10. -/
theorem benchmark_C1 (xs : List ℚ) (h : xs ≠ []) :
    List.Sorted (· ≤ ·) (sorted_times xs) ∧
    (sorted_times xs).Perm xs ∧
    (calculate_statistics xs).p90 =
      (if 10 ≤ xs.length then
        (sorted_times xs).getD (⌊(xs.length : ℚ) * (9/10)⌋₊ - 1) 0
      else listMax xs) ∧
    (calculate_statistics xs).p95 =
      (if 20 ≤ xs.length then
        (sorted_times xs).getD (⌊(xs.length : ℚ) * (95/100)⌋₊ - 1) 0
      else listMax xs) ∧
    (calculate_statistics xs).p99 =
      (if 100 ≤ xs.length then
        (sorted_times xs).getD (⌊(xs.length : ℚ) * (99/100)⌋₊ - 1) 0
      else listMax xs) ∧
    (xs.length = 9 →
      (calculate_statistics xs).p90 = listMax xs ∧
      (calculate_statistics xs).p95 = listMax xs ∧
      (calculate_statistics xs).p99 = listMax xs) ∧
    (xs.length = 10 →
      (calculate_statistics xs).p90 = (sorted_times xs).getD 8 0) := by
  have h90 : (calculate_statistics xs).p90 =
      (if 10 ≤ xs.length then
        (sorted_times xs).getD (⌊(xs.length : ℚ) * (9/10)⌋₊ - 1) 0
      else listMax xs) := by
    rw [calculate_statistics_of_ne xs h]
    simp only [length_sorted_times, natFloor_p90]
    by_cases h10 : 10 ≤ xs.length
    · rw [if_pos h10, if_pos h10]
    · rw [if_neg h10, if_neg h10, ← length_sorted_times,
        sorted_times_getD_last xs h]
  have h95 : (calculate_statistics xs).p95 =
      (if 20 ≤ xs.length then
        (sorted_times xs).getD (⌊(xs.length : ℚ) * (95/100)⌋₊ - 1) 0
      else listMax xs) := by
    rw [calculate_statistics_of_ne xs h]
    simp only [length_sorted_times, natFloor_p95]
    by_cases h20 : 20 ≤ xs.length
    · rw [if_pos h20, if_pos h20]
    · rw [if_neg h20, if_neg h20, ← length_sorted_times,
        sorted_times_getD_last xs h]
  have h99 : (calculate_statistics xs).p99 =
      (if 100 ≤ xs.length then
        (sorted_times xs).getD (⌊(xs.length : ℚ) * (99/100)⌋₊ - 1) 0
      else listMax xs) := by
    rw [calculate_statistics_of_ne xs h]
    simp only [length_sorted_times, natFloor_p99]
    by_cases h100 : 100 ≤ xs.length
    · rw [if_pos h100, if_pos h100]
    · rw [if_neg h100, if_neg h100, ← length_sorted_times,
        sorted_times_getD_last xs h]
  refine ⟨List.sorted_insertionSort _ xs, sorted_times_perm xs,
    h90, h95, h99, ?_, ?_⟩
  · intro h9
    refine ⟨?_, ?_, ?_⟩
    · rw [h90, if_neg (by omega)]
    · rw [h95, if_neg (by omega)]
    · rw [h99, if_neg (by omega)]
  · intro h10
    rw [h90, if_pos (by omega), h10]
    norm_num

/-- Witness for C1 at the three-element sequence [2, 1, 3]. -/
theorem benchmark_C1_witness :
    ([2, 1, 3] : List ℚ) ≠ [] ∧
    (List.Sorted (· ≤ ·) (sorted_times [2, 1, 3]) ∧
      (sorted_times [2, 1, 3]).Perm [2, 1, 3] ∧
      (calculate_statistics [2, 1, 3]).p90 =
        (if 10 ≤ ([2, 1, 3] : List ℚ).length then
          (sorted_times [2, 1, 3]).getD
            (⌊(([2, 1, 3] : List ℚ).length : ℚ) * (9/10)⌋₊ - 1) 0
        else listMax [2, 1, 3]) ∧
      (calculate_statistics [2, 1, 3]).p95 =
        (if 20 ≤ ([2, 1, 3] : List ℚ).length then
          (sorted_times [2, 1, 3]).getD
            (⌊(([2, 1, 3] : List ℚ).length : ℚ) * (95/100)⌋₊ - 1) 0
        else listMax [2, 1, 3]) ∧
      (calculate_statistics [2, 1, 3]).p99 =
        (if 100 ≤ ([2, 1, 3] : List ℚ).length then
          (sorted_times [2, 1, 3]).getD
            (⌊(([2, 1, 3] : List ℚ).length : ℚ) * (99/100)⌋₊ - 1) 0
        else listMax [2, 1, 3]) ∧
      (([2, 1, 3] : List ℚ).length = 9 →
        (calculate_statistics [2, 1, 3]).p90 = listMax [2, 1, 3] ∧
        (calculate_statistics [2, 1, 3]).p95 = listMax [2, 1, 3] ∧
        (calculate_statistics [2, 1, 3]).p99 = listMax [2, 1, 3]) ∧
      (([2, 1, 3] : List ℚ).length = 10 →
        (calculate_statistics [2, 1, 3]).p90 =
          (sorted_times [2, 1, 3]).getD 8 0)) :=
  ⟨by simp, benchmark_C1 [2, 1, 3] (by simp)⟩

/-- Claim C3 (pacing sleeps), evaluated at concrete failing inputs.  In
    the API copy (src/benchmark.py) the pacing sleep falls strictly
    between the end of each non-final iteration and the start of the
    next; in the CLI copy (src/main.py) a run of two successful
    iterations performs no pacing sleep at all, and a run with failing
    attempts sleeps the pacing delay inside iteration 0, between two
    retry attempts — contradicting the claim. -/
theorem benchmark_C3 :
    cfgTwo.num_requests = 2 ∧ cfgTwoRetry.num_requests = 2 ∧
    boundaryAndPacing (run_benchmark cfgTwo execOK (fun _ => "")).2 =
      [Ev.iterStart 0, Ev.iterEnd 0, Ev.sleepPacing 2,
       Ev.iterStart 1, Ev.iterEnd 1] ∧
    boundaryAndPacing (run_benchmark_main cfgTwo true execOK).2 =
      [Ev.iterStart 0, Ev.iterEnd 0, Ev.iterStart 1, Ev.iterEnd 1] ∧
    boundaryAndPacing (run_benchmark_main cfgTwoRetry true execFail).2 =
      [Ev.iterStart 0, Ev.sleepPacing 2, Ev.iterEnd 0,
       Ev.iterStart 1, Ev.iterEnd 1] := by
  exact ⟨rfl, rfl, rfl, rfl, rfl⟩

/-! ## Client-construction lemmas (for C10) -/

lemma attemptOnce_clientFlags (cfg : Config) (exec : ℕ → Outcome)
    (pr : String) (ctr : ℕ) :
    clientVerifyFlags (attemptOnce cfg exec pr ctr).2.2 = [] := by
  rw [attemptOnce]
  split
  · split
    · simp [clientVerifyFlags]
    · simp [clientVerifyFlags]
  · simp [clientVerifyFlags]

lemma clientVerifyFlags_append (a b : List Ev) :
    clientVerifyFlags (a ++ b) = clientVerifyFlags a ++ clientVerifyFlags b := by
  simp [clientVerifyFlags, List.filterMap_append]

lemma cvf_nil : clientVerifyFlags [] = [] := rfl

lemma cvf_cons_request (fb : Bool) (ep pr : String) (tr : List Ev) :
    clientVerifyFlags (Ev.request fb ep pr :: tr) = clientVerifyFlags tr := by
  simp [clientVerifyFlags, List.filterMap_cons]

lemma cvf_cons_sleepRetry (d : ℚ) (tr : List Ev) :
    clientVerifyFlags (Ev.sleepRetry d :: tr) = clientVerifyFlags tr := by
  simp [clientVerifyFlags, List.filterMap_cons]

lemma cvf_cons_sleepPacing (d : ℚ) (tr : List Ev) :
    clientVerifyFlags (Ev.sleepPacing d :: tr) = clientVerifyFlags tr := by
  simp [clientVerifyFlags, List.filterMap_cons]

lemma cvf_cons_iterStart (i : ℕ) (tr : List Ev) :
    clientVerifyFlags (Ev.iterStart i :: tr) = clientVerifyFlags tr := by
  simp [clientVerifyFlags, List.filterMap_cons]

lemma cvf_cons_iterEnd (i : ℕ) (tr : List Ev) :
    clientVerifyFlags (Ev.iterEnd i :: tr) = clientVerifyFlags tr := by
  simp [clientVerifyFlags, List.filterMap_cons]

lemma retryLoop_clientFlags (cfg : Config) (exec : ℕ → Outcome) (pr : String) :
    ∀ gas rc ctr, clientVerifyFlags (retryLoop cfg exec pr gas rc ctr).2.2 = [] := by
  intro gas
  induction gas with
  | zero => intro rc ctr; simp [retryLoop, clientVerifyFlags]
  | succ g ih =>
    intro rc ctr
    rw [retryLoop]
    by_cases h1 : (attemptOnce cfg exec pr ctr).1.hasData
    · simp only [h1, if_true]
      exact attemptOnce_clientFlags cfg exec pr ctr
    · simp only [h1]
      by_cases h2 : rc + 1 ≤ cfg.max_retries
      · simp only [h2, if_true, if_false, Bool.false_eq_true]
        rw [clientVerifyFlags_append, attemptOnce_clientFlags,
          cvf_cons_sleepRetry, ih]
        rfl
      · simp only [h2, if_false, Bool.false_eq_true]
        exact attemptOnce_clientFlags cfg exec pr ctr

lemma loopFrom_clientFlags (cfg : Config) (exec : ℕ → Outcome)
    (rand : ℕ → String) :
    ∀ remaining i ctr,
      clientVerifyFlags (loopFrom cfg exec rand remaining i ctr).2 = [] := by
  intro remaining
  induction remaining with
  | zero => intro i ctr; simp [loopFrom, clientVerifyFlags]
  | succ rem ih =>
    intro i ctr
    rw [loopFrom]
    simp only []
    rw [clientVerifyFlags_append, clientVerifyFlags_append,
      clientVerifyFlags_append, cvf_cons_iterStart, retryLoop_clientFlags,
      cvf_cons_iterEnd, cvf_nil, ih]
    by_cases hp : i < cfg.num_requests - 1
    · rw [if_pos hp, cvf_cons_sleepPacing, cvf_nil]; rfl
    · rw [if_neg hp, cvf_nil]; rfl

/-- Claim C10: the API-surface benchmark loop constructs its HTTP client
    with TLS verification disabled: in every run, whatever the
    configuration and whatever the network does, the only client ever
    constructed carries verify = False. -/
theorem benchmark_C10 (cfg : Config) (exec : ℕ → Outcome)
    (rand : ℕ → String) :
    clientVerifyFlags (run_benchmark cfg exec rand).2 = [false] := by
  rw [run_benchmark]
  simp only [clientVerifyFlags, List.filterMap_cons]
  have h := loopFrom_clientFlags cfg exec rand cfg.num_requests 0 0
  rw [clientVerifyFlags] at h
  simp [h]

/-- Claim C4: within one retry attempt, the single protocol-fallback
    request (same prompt, endpoint with https:// replaced by http://) is
    issued iff the attempt produced no body, debug is on, the endpoint is
    https, and the error is SSL/TLS-classified (by type or by the "SSL" /
    "TLS" substrings); its outcome replaces the attempt's outcome, and no
    second fallback can follow it. -/
theorem benchmark_C4 (cfg : Config) (exec : ℕ → Outcome) (pr : String)
    (ctr : ℕ) :
    (fallbackCount (attemptOnce cfg exec pr ctr).2.2 = 1 ↔
      ((exec ctr).hasData = false ∧ cfg.debug = true ∧
        startsWithHttps cfg.endpoint = true ∧
        (exec ctr).exception.isSome = true ∧
        sslRelated (exec ctr).exception = true)) ∧
    fallbackCount (attemptOnce cfg exec pr ctr).2.2 ≤ 1 ∧
    (fallbackCount (attemptOnce cfg exec pr ctr).2.2 = 1 →
      (attemptOnce cfg exec pr ctr).2.2 =
        [Ev.request false cfg.endpoint pr,
         Ev.request true (replaceHttpsStr cfg.endpoint) pr] ∧
      (attemptOnce cfg exec pr ctr).1 = exec (ctr + 1)) ∧
    (fallbackCount (attemptOnce cfg exec pr ctr).2.2 = 0 →
      (attemptOnce cfg exec pr ctr).2.2 =
        [Ev.request false cfg.endpoint pr] ∧
      (attemptOnce cfg exec pr ctr).1 = exec ctr) := by
  rw [attemptOnce]
  split_ifs with h1 h2
  · refine ⟨?_, ?_, ?_, ?_⟩
    · constructor
      · intro _
        exact ⟨h1.1, h1.2.1, h1.2.2, h2.1, h2.2⟩
      · intro _
        simp [fallbackCount]
    · simp [fallbackCount]
    · intro _
      exact ⟨rfl, rfl⟩
    · intro h0
      simp [fallbackCount] at h0
  · refine ⟨?_, ?_, ?_, ?_⟩
    · constructor
      · intro h0
        simp [fallbackCount] at h0
      · intro hr
        exact absurd ⟨hr.2.2.2.1, hr.2.2.2.2⟩ h2
    · simp [fallbackCount]
    · intro h0
      simp [fallbackCount] at h0
    · intro _
      exact ⟨rfl, rfl⟩
  · refine ⟨?_, ?_, ?_, ?_⟩
    · constructor
      · intro h0
        simp [fallbackCount] at h0
      · intro hr
        exact absurd ⟨hr.1, hr.2.1, hr.2.2.1⟩ h1
    · simp [fallbackCount]
    · intro h0
      simp [fallbackCount] at h0
    · intro _
      exact ⟨rfl, rfl⟩

/-- Witness for C4: with an https endpoint, debug on and an
    SSL-classified failure, exactly one fallback request is issued and
    its outcome replaces the original. -/
theorem benchmark_C4_witness :
    fallbackCount (attemptOnce cfgSSL execSSL "p" 0).2.2 = 1 ∧
    (attemptOnce cfgSSL execSSL "p" 0).1 = execSSL 1 := by
  have h := benchmark_C4 cfgSSL execSSL "p" 0
  have h1 : fallbackCount (attemptOnce cfgSSL execSSL "p" 0).2.2 = 1 :=
    h.1.mpr ⟨rfl, rfl, rfl, rfl, rfl⟩
  exact ⟨h1, (h.2.2.1 h1).2⟩

/-! ## Retry-loop lemmas (for C5) -/

lemma nfc_append (a b : List Ev) :
    nonFallbackCount (a ++ b) = nonFallbackCount a + nonFallbackCount b := by
  simp [nonFallbackCount, List.filter_append]

lemma nfc_cons_sleepRetry (d : ℚ) (tr : List Ev) :
    nonFallbackCount (Ev.sleepRetry d :: tr) = nonFallbackCount tr := by
  simp [nonFallbackCount, List.filter_cons]

lemma rst_append (a b : List Ev) :
    retrySleepTimes (a ++ b) = retrySleepTimes a ++ retrySleepTimes b := by
  simp [retrySleepTimes, List.filterMap_append]

lemma rst_cons_sleepRetry (d : ℚ) (tr : List Ev) :
    retrySleepTimes (Ev.sleepRetry d :: tr) = d :: retrySleepTimes tr := by
  simp [retrySleepTimes, List.filterMap_cons]

lemma attemptOnce_nfc (cfg : Config) (exec : ℕ → Outcome) (pr : String)
    (ctr : ℕ) : nonFallbackCount (attemptOnce cfg exec pr ctr).2.2 = 1 := by
  rw [attemptOnce]
  split_ifs <;> simp [nonFallbackCount]

lemma attemptOnce_rst (cfg : Config) (exec : ℕ → Outcome) (pr : String)
    (ctr : ℕ) : retrySleepTimes (attemptOnce cfg exec pr ctr).2.2 = [] := by
  rw [attemptOnce]
  split_ifs <;> simp [retrySleepTimes]

/-- Invariant of the retry loop: starting with `gas` remaining entries
    (i.e. retry counter `rc = max_retries + 1 - gas`), the loop makes
    between 1 and `gas` non-fallback attempts, sleeps the linear backoff
    `retry_delay * (rc + k + 1)` after the k-th failed attempt, and makes
    exactly `gas` attempts when it ends without a sample. -/
lemma retryLoop_spec (cfg : Config) (exec : ℕ → Outcome) (pr : String) :
    ∀ gas rc ctr, 0 < gas → gas + rc = cfg.max_retries + 1 →
      1 ≤ nonFallbackCount (retryLoop cfg exec pr gas rc ctr).2.2 ∧
      nonFallbackCount (retryLoop cfg exec pr gas rc ctr).2.2 ≤ gas ∧
      retrySleepTimes (retryLoop cfg exec pr gas rc ctr).2.2 =
        (List.range
          (nonFallbackCount (retryLoop cfg exec pr gas rc ctr).2.2 - 1)).map
          (fun k : ℕ => cfg.retry_delay * ((rc : ℚ) + (k : ℚ) + 1)) ∧
      ((retryLoop cfg exec pr gas rc ctr).2.1 = none →
        nonFallbackCount (retryLoop cfg exec pr gas rc ctr).2.2 = gas) := by
  intro gas
  induction gas with
  | zero =>
    intro rc ctr h0 _
    exact absurd h0 (by omega)
  | succ g ih =>
    intro rc ctr _ hsum
    rw [retryLoop]
    by_cases h1 : (attemptOnce cfg exec pr ctr).1.hasData = true
    · simp only [h1, if_true]
      refine ⟨?_, ?_, ?_, ?_⟩
      · rw [attemptOnce_nfc]
      · rw [attemptOnce_nfc]; omega
      · rw [attemptOnce_nfc, attemptOnce_rst]
        rfl
      · intro hs
        simp at hs
    · simp only [h1, if_false, Bool.false_eq_true]
      by_cases h2 : rc + 1 ≤ cfg.max_retries
      · simp only [h2, if_true]
        have hih := ih (rc + 1) (attemptOnce cfg exec pr ctr).2.1
          (by omega) (by omega)
        set a := nonFallbackCount
          (retryLoop cfg exec pr g (rc + 1)
            (attemptOnce cfg exec pr ctr).2.1).2.2 with ha_def
        obtain ⟨ha1, ha2, ha3, ha4⟩ := hih
        have hnfc : nonFallbackCount
            ((attemptOnce cfg exec pr ctr).2.2 ++
              Ev.sleepRetry (cfg.retry_delay * ((rc : ℚ) + 1)) ::
                (retryLoop cfg exec pr g (rc + 1)
                  (attemptOnce cfg exec pr ctr).2.1).2.2) = 1 + a := by
          rw [nfc_append, attemptOnce_nfc, nfc_cons_sleepRetry, ha_def]
        refine ⟨?_, ?_, ?_, ?_⟩
        · simp only [hnfc]; omega
        · simp only [hnfc]; omega
        · simp only [hnfc]
          rw [rst_append, attemptOnce_rst, rst_cons_sleepRetry, ha3,
            List.nil_append]
          have hrange : 1 + a - 1 = (a - 1) + 1 := by omega
          rw [hrange, List.range_succ_eq_map, List.map_cons, List.map_map]
          congr 1
          · norm_num
          · exact List.map_congr_left (fun k _ => by
              simp only [Function.comp_apply]
              push_cast
              ring)
        · intro hs
          simp only [hnfc]
          have := ha4 hs
          omega
      · simp only [h2, if_false]
        have hg : g = 0 := by omega
        refine ⟨?_, ?_, ?_, ?_⟩
        · rw [attemptOnce_nfc]
        · rw [attemptOnce_nfc]; omega
        · rw [attemptOnce_nfc, attemptOnce_rst]
          rfl
        · intro _
          rw [attemptOnce_nfc]
          omega

/-- Claim C5: in one iteration of the benchmark loop (the retry loop is
    always entered with retry counter 0), the loop makes at most
    `max_retries + 1` non-fallback attempts, sleeps the linear backoff
    `retry_delay * retry_count` after each failed attempt that still has
    retries left, records at most one sample, and abandons the iteration
    (no sample) exactly when all `max_retries + 1` attempts failed. -/
theorem benchmark_C5 (cfg : Config) (exec : ℕ → Outcome) (pr : String)
    (ctr : ℕ) :
    1 ≤ nonFallbackCount
      (retryLoop cfg exec pr (cfg.max_retries + 1) 0 ctr).2.2 ∧
    nonFallbackCount (retryLoop cfg exec pr (cfg.max_retries + 1) 0 ctr).2.2 ≤
      cfg.max_retries + 1 ∧
    retrySleepTimes (retryLoop cfg exec pr (cfg.max_retries + 1) 0 ctr).2.2 =
      (List.range (nonFallbackCount
        (retryLoop cfg exec pr (cfg.max_retries + 1) 0 ctr).2.2 - 1)).map
        (fun k : ℕ => cfg.retry_delay * ((k : ℚ) + 1)) ∧
    ((retryLoop cfg exec pr (cfg.max_retries + 1) 0 ctr).2.1 = none →
      nonFallbackCount
        (retryLoop cfg exec pr (cfg.max_retries + 1) 0 ctr).2.2 =
        cfg.max_retries + 1) ∧
    (retryLoop cfg exec pr (cfg.max_retries + 1) 0 ctr).2.1.toList.length ≤ 1 := by
  obtain ⟨h1, h2, h3, h4⟩ :=
    retryLoop_spec cfg exec pr (cfg.max_retries + 1) 0 ctr
      (by omega) (by omega)
  refine ⟨h1, h2, ?_, h4, ?_⟩
  · rw [h3]
    exact List.map_congr_left (fun k _ => by push_cast; ring)
  · cases (retryLoop cfg exec pr (cfg.max_retries + 1) 0 ctr).2.1 <;> simp

/-- Witness for C5 at a configuration with `max_retries = 0` and an
    always-failing executor: exactly one attempt, no backoff sleep, no
    sample. -/
theorem benchmark_C5_witness :
    1 ≤ nonFallbackCount
      (retryLoop cfgTwo execFail "p" (cfgTwo.max_retries + 1) 0 0).2.2 ∧
    nonFallbackCount
      (retryLoop cfgTwo execFail "p" (cfgTwo.max_retries + 1) 0 0).2.2 ≤
      cfgTwo.max_retries + 1 ∧
    retrySleepTimes
      (retryLoop cfgTwo execFail "p" (cfgTwo.max_retries + 1) 0 0).2.2 =
      (List.range (nonFallbackCount
        (retryLoop cfgTwo execFail "p" (cfgTwo.max_retries + 1) 0 0).2.2 - 1)).map
        (fun k : ℕ => cfgTwo.retry_delay * ((k : ℚ) + 1)) ∧
    ((retryLoop cfgTwo execFail "p" (cfgTwo.max_retries + 1) 0 0).2.1 = none →
      nonFallbackCount
        (retryLoop cfgTwo execFail "p" (cfgTwo.max_retries + 1) 0 0).2.2 =
        cfgTwo.max_retries + 1) ∧
    (retryLoop cfgTwo execFail "p"
      (cfgTwo.max_retries + 1) 0 0).2.1.toList.length ≤ 1 :=
  benchmark_C5 cfgTwo execFail "p" 0

/-! ## Histogram lemmas (for C8) -/

lemma list_eq_map_range_getD (l : List ℕ) :
    l = (List.range l.length).map (fun i => l.getD i 0) := by
  apply List.ext_getElem
  · simp
  · intro i h1 h2
    simp only [List.getElem_map, List.getElem_range]
    rw [getD_eq_getElem_of_lt _ _ _ h1]

lemma length_incAt (l : List ℕ) (i : ℕ) : (incAt l i).length = l.length := by
  simp [incAt]

lemma getD_incAt_self (l : List ℕ) (j : ℕ) (h : j < l.length) :
    (incAt l j).getD j 0 = l.getD j 0 + 1 := by
  rw [incAt, getD_eq_getElem_of_lt _ _ _ (by simpa using h)]
  simp

lemma getD_incAt_ne (l : List ℕ) (i j : ℕ) (h : j ≠ i) :
    (incAt l j).getD i 0 = l.getD i 0 := by
  by_cases hi : i < l.length
  · rw [incAt, getD_eq_getElem_of_lt _ _ _ (by simpa using hi),
      getD_eq_getElem_of_lt _ _ _ hi]
    simp [List.getElem_set_ne h]
  · have h1 : l.length ≤ i := by omega
    rw [List.getD_eq_getElem?_getD, List.getD_eq_getElem?_getD,
      List.getElem?_eq_none (by simpa [incAt] using h1),
      List.getElem?_eq_none h1]

lemma foldl_incAt_eq_counts (f : ℚ → ℕ) (bins : ℕ) :
    ∀ (xs : List ℚ) (acc : List ℕ), acc.length = bins →
      (∀ v ∈ xs, f v < bins) →
      xs.foldl (fun a v => incAt a (f v)) acc =
        (List.range bins).map
          (fun i => acc.getD i 0 + (xs.filter (fun v => f v = i)).length) := by
  intro xs
  induction xs with
  | nil =>
    intro acc hlen _
    simp only [List.foldl_nil, List.filter_nil, List.length_nil, Nat.add_zero]
    rw [← hlen]
    exact list_eq_map_range_getD acc
  | cons v tl ih =>
    intro acc hlen hf
    rw [List.foldl_cons]
    rw [ih (incAt acc (f v)) (by rw [length_incAt]; exact hlen)
      (fun w hw => hf w (List.mem_cons_of_mem v hw))]
    apply List.map_congr_left
    intro i hi
    have hfv : f v < bins := hf v (List.mem_cons_self v tl)
    by_cases hvi : f v = i
    · rw [← hvi, getD_incAt_self acc (f v) (by omega)]
      simp only [List.filter_cons]
      rw [if_pos (by simp)]
      simp only [List.length_cons]
      omega
    · rw [getD_incAt_ne acc i (f v) hvi]
      simp only [List.filter_cons]
      rw [if_neg (by simpa using hvi)]

lemma bucketIndex_eq_specBucket (mn w : ℚ) (bins : ℕ) (v : ℚ) :
    bucketIndex mn w bins v = specBucket mn w bins v := by
  rw [bucketIndex, specBucket, Int.floor_toNat]

lemma binWidthOf_eq_specWidth (xs : List ℚ) (bins : ℕ) :
    binWidthOf xs bins = specWidth xs bins := rfl

lemma binCountsOf_eq_specCounts (xs : List ℚ) (bins : ℕ) (hb : 0 < bins) :
    binCountsOf xs bins = specCountsOf xs bins := by
  rw [binCountsOf, mkBinCounts, specCountsOf,
    foldl_incAt_eq_counts
      (fun v => bucketIndex (listMin xs) (binWidthOf xs bins) bins v) bins xs
      (List.replicate bins 0) (List.length_replicate bins 0)
      (fun v _ => by
        simp only [bucketIndex]
        have h1 := min_le_left (bins - 1)
          ((⌊(v - listMin xs) / binWidthOf xs bins⌋).toNat)
        omega)]
  apply List.map_congr_left
  intro i hi
  rw [getD_eq_getElem_of_lt _ _ _ (by simpa using List.mem_range.mp hi)]
  simp only [List.getElem_replicate, Nat.zero_add]
  congr 1

lemma length_binCountsOf (xs : List ℚ) (bins : ℕ) :
    (binCountsOf xs bins).length = bins := by
  rw [binCountsOf, mkBinCounts]
  have h : ∀ (l : List ℚ) (acc : List ℕ),
      (l.foldl (fun a v =>
        incAt a (bucketIndex (listMin xs) (binWidthOf xs bins) bins v))
        acc).length = acc.length := by
    intro l
    induction l with
    | nil => intro acc; rfl
    | cons v tl ih =>
      intro acc
      rw [List.foldl_cons, ih, length_incAt]
  rw [h, List.length_replicate]

lemma listMaxNat_binCounts_pos (xs : List ℚ) (bins : ℕ) (hx : xs ≠ [])
    (hb : 0 < bins) : 0 < listMaxNat (binCountsOf xs bins) := by
  rw [binCountsOf_eq_specCounts xs bins hb]
  cases xs with
  | nil => exact absurd rfl hx
  | cons x rest =>
    have hi0 : specBucket (listMin (x :: rest))
        (specWidth (x :: rest) bins) bins x < bins := by
      rw [specBucket]
      have h1 := min_le_left (bins - 1)
        (⌊(x - listMin (x :: rest)) / specWidth (x :: rest) bins⌋₊)
      omega
    have hentry : (specCountsOf (x :: rest) bins).getD
        (specBucket (listMin (x :: rest)) (specWidth (x :: rest) bins) bins x)
        0 =
        ((x :: rest).filter (fun v =>
          specBucket (listMin (x :: rest)) (specWidth (x :: rest) bins) bins v =
            specBucket (listMin (x :: rest)) (specWidth (x :: rest) bins) bins
              x)).length := by
      rw [specCountsOf, getD_eq_getElem_of_lt _ _ _ (by simpa using hi0)]
      simp
    have hpos : 0 < (specCountsOf (x :: rest) bins).getD
        (specBucket (listMin (x :: rest)) (specWidth (x :: rest) bins) bins x)
        0 := by
      rw [hentry]
      have hxmem : x ∈ (x :: rest).filter (fun v =>
          specBucket (listMin (x :: rest)) (specWidth (x :: rest) bins) bins v =
            specBucket (listMin (x :: rest)) (specWidth (x :: rest) bins) bins
              x) :=
        List.mem_filter.mpr ⟨List.mem_cons_self x rest, by simp⟩
      exact List.length_pos.mpr (fun hnil => by simp [hnil] at hxmem)
    have hmem : (specCountsOf (x :: rest) bins).getD
        (specBucket (listMin (x :: rest)) (specWidth (x :: rest) bins) bins x)
        0 ∈ specCountsOf (x :: rest) bins := by
      rw [getD_eq_getElem_of_lt _ _ _
        (by rw [specCountsOf]; simpa using hi0)]
      exact List.getElem_mem _
    have := le_listMaxNat _ _ hmem
    omega

lemma histBarLen (c maxc : ℕ) :
    (⌊(c : ℚ) * (40 / (maxc : ℚ))⌋).toNat = c * 40 / maxc := by
  rw [Int.floor_toNat,
    show (c : ℚ) * (40 / (maxc : ℚ)) = ((c * 40 : ℕ) : ℚ) / ((maxc : ℕ) : ℚ)
      by push_cast; ring,
    Nat.floor_div_nat, Nat.floor_natCast]

lemma enum_map_eq_range (l : List ℕ) (g : ℕ × ℕ → String) :
    l.enum.map g = (List.range l.length).map (fun i => g (i, l.getD i 0)) := by
  apply List.ext_getElem
  · simp
  · intro i h1 h2
    have hi : i < l.length := by simpa using h2
    simp only [List.getElem_map, List.getElem_range, List.getElem_enum]
    rw [getD_eq_getElem_of_lt _ _ _ hi]

lemma foldl_incAt_zero (f : ℚ → ℕ) :
    ∀ (xs : List ℚ), (∀ v ∈ xs, f v = 0) →
      ∀ (k : ℕ) (t : List ℕ),
        xs.foldl (fun a v => incAt a (f v)) (k :: t) = (k + xs.length) :: t := by
  intro xs
  induction xs with
  | nil => intro _ k t; simp
  | cons v tl ih =>
    intro hf k t
    rw [List.foldl_cons,
      show incAt (k :: t) (f v) = (k + 1) :: t from by
        rw [hf v (List.mem_cons_self v tl)]; simp [incAt],
      ih (fun w hw => hf w (List.mem_cons_of_mem v hw)) (k + 1) t]
    congr 1
    simp only [List.length_cons]
    omega

/-- Claim C8: for non-empty input and a positive bucket count, the
    histogram generator's output equals the spec's reference rendering
    (width rule, clamped bucket assignment, `floor(c * 40 / max_count)`
    bars, one formatted line per bucket joined by newlines), and when all
    samples are equal the first bucket holds all of them and every other
    bucket is empty. -/
theorem benchmark_C8 (xs : List ℚ) (bins : ℕ) (hx : xs ≠ []) (hb : 0 < bins) :
    generate_ascii_histogram xs bins = histogramSpec xs bins ∧
    ((∀ v ∈ xs, v = listMin xs) →
      binCountsOf xs bins = xs.length :: List.replicate (bins - 1) 0) := by
  constructor
  · rw [generate_ascii_histogram, if_neg hx, histogramSpec]
    congr 1
    rw [enum_map_eq_range, length_binCountsOf]
    apply List.map_congr_left
    intro i hi
    have hc := binCountsOf_eq_specCounts xs bins hb
    have hm : 0 < listMaxNat (binCountsOf xs bins) :=
      listMaxNat_binCounts_pos xs bins hx hb
    rw [hc] at hm
    simp only [hc, specLine, histBar]
    rw [if_pos hm, histBarLen]
    rfl
  · intro hall
    have hminmax : listMin xs = listMax xs := by
      have h1 := listMax_mem xs hx
      exact (hall (listMax xs) h1).symm
    have hwidth : binWidthOf xs bins = 1/10 := by
      rw [binWidthOf, if_pos hminmax]
    have hzero : ∀ v ∈ xs,
        bucketIndex (listMin xs) (binWidthOf xs bins) bins v = 0 := by
      intro v hv
      rw [bucketIndex, hall v hv]
      norm_num
    have hrep : List.replicate bins (0 : ℕ) =
        0 :: List.replicate (bins - 1) 0 := by
      cases bins with
      | zero => omega
      | succ b => simp [List.replicate_succ]
    rw [binCountsOf, mkBinCounts, hrep,
      foldl_incAt_zero
        (fun v => bucketIndex (listMin xs) (binWidthOf xs bins) bins v)
        xs hzero 0 (List.replicate (bins - 1) 0)]
    congr 1
    omega

/-- Witness for C8 at the one-element sequence [1/2] with two buckets. -/
theorem benchmark_C8_witness :
    ([1/2] : List ℚ) ≠ [] ∧ 0 < 2 ∧
    (generate_ascii_histogram [1/2] 2 = histogramSpec [1/2] 2 ∧
      ((∀ v ∈ ([1/2] : List ℚ), v = listMin [1/2]) →
        binCountsOf [1/2] 2 =
          ([1/2] : List ℚ).length :: List.replicate (2 - 1) 0)) :=
  ⟨by simp, by norm_num, benchmark_C8 [1/2] 2 (by simp) (by norm_num)⟩
